import Mathlib

/-!
Verification of the pull-analyzer pipeline of this repository: a shallow
embedding of the logic in program/providers.py and program/report.py,
followed by theorems about the conversation fetcher, the issue-search
pagination, the completion retry loop, the fan-out reassembly and the
report assembly.
-/

namespace PullAnalyzer

/-- A role-tagged chat message, the dict with keys role and content built
throughout providers.py and report.py. -/
structure Message where
  role : String
  content : String
deriving DecidableEq, Repr

/-- A GitHub comment as consumed by GitHubProvider.get_comments: the author
login and the body field, which may be JSON null (modelled by none). -/
structure Comment where
  user_login : String
  body : Option String
deriving DecidableEq, Repr

/-- Python falsiness test on an optional string: the source guard
if not content holds for null and for the empty string. -/
def isFalsy : Option String → Bool
  | none => true
  | some s => s = ""

/-- The body of the for loop in GitHubProvider.get_comments, providers.py
lines 87 to 104: the comment is skipped when its body is falsy, otherwise
a message is built whose role is user when the author login equals the
student login and assistant otherwise, and whose content is the body. -/
def comment_to_message (student_login : String) (c : Comment) : Option Message :=
  if isFalsy c.body then none
  else some { role := if c.user_login = student_login then "user" else "assistant",
              content := c.body.getD "" }

/-- GitHubProvider.get_comments, providers.py lines 74 to 106: the
accumulating for loop over the server-ordered comment list. -/
def get_comments (comments : List Comment) (student_login : String) : List Message :=
  comments.foldl
    (fun acc c =>
      match comment_to_message student_login c with
      | none => acc
      | some m => acc ++ [m])
    []

/-- The fields of the pull-request resource that get_pull_request_pull
reads: requester login, body, and the two comment streams that the source
fetches through comments_url and review_comments_url; here the fetched
server-ordered lists stand in for the URLs. -/
structure PullRequest where
  user_login : String
  body : Option String
  comments : List Comment
  review_comments : List Comment
deriving DecidableEq, Repr

/-- The conversation value returned by get_pull_request_pull: the pull URL
as identity and the assembled message sequence. -/
structure Pull where
  url : String
  messages : List Message
deriving DecidableEq, Repr

/-- GitHubProvider.get_pull_request_pull, providers.py lines 108 to 145:
the message list starts with the pull body as a user message unless the
body is falsy, is extended with the general comments, and is then extended
with the review comments. -/
def get_pull_request_pull (url : String) (pr : PullRequest) : Pull :=
  let messages0 : List Message := []
  let messages1 := if isFalsy pr.body then messages0
                   else messages0 ++ [{ role := "user", content := pr.body.getD "" }]
  let messages2 := messages1 ++ get_comments pr.comments pr.user_login
  let messages3 := messages2 ++ get_comments pr.review_comments pr.user_login
  { url := url, messages := messages3 }

/-- One record of the search result list: the issue URL and the nested
pull-request API URL; none models a record whose payload lacks the
pull_request pairing, on which the source lookup raises. -/
structure IssueRecord where
  url : String
  pull_request_url : Option String
deriving DecidableEq, Repr

/-- The parsed JSON body of one search-endpoint response: a body that is
not JSON, a parsed body without a result list, or a result list. -/
inductive SearchBody
  | unparseable
  | noItems
  | items (records : List IssueRecord)
deriving DecidableEq, Repr

/-- One response of the search endpoint, status code and body. The source
never inspects the status code of search responses. -/
structure SearchResponse where
  status : Nat
  body : SearchBody
deriving DecidableEq, Repr

/-- The url extraction of the inner for loop of get_pull_requests,
providers.py lines 59 to 68: every record contributes the URL under its
pull_request key, and a missing key raises, discarding all urls collected
so far. -/
def extract_urls : List IssueRecord → Option (List String)
  | [] => some []
  | r :: rest =>
    match r.pull_request_url with
    | none => none
    | some u => (extract_urls rest).map (fun us => u :: us)

/-- The while loop of GitHubProvider.get_pull_requests, providers.py lines
41 to 72, with the unbounded loop made structural by a fuel argument:
none means the fuel ran out before the loop returned, some of an error a
raised exception, and some of an ok value a normal return. -/
def get_pull_requests_from (pages : Nat → SearchResponse) :
    Nat → Nat → List String → Option (Except String (List String))
  | 0, _, _ => none
  | fuel + 1, page, acc =>
    match (pages page).body with
    | .unparseable => some (.error "response body is not JSON")
    | .noItems => some (.ok acc)
    | .items records =>
      if records = [] then some (.ok acc)
      else
        match extract_urls records with
        | none => some (.error "missing pull_request url")
        | some urls => get_pull_requests_from pages fuel (page + 1) (acc ++ urls)

/-- GitHubProvider.get_pull_requests: the pagination starts at page 1 with
an empty url accumulator. -/
def get_pull_requests (pages : Nat → SearchResponse) (fuel : Nat) :
    Option (Except String (List String)) :=
  get_pull_requests_from pages fuel 1 []

/-- The pull-request URLs carried by one search page, in record order. -/
def pageUrls (pages : Nat → SearchResponse) (m : Nat) : List String :=
  match (pages m).body with
  | .items records => records.filterMap (fun q => q.pull_request_url)
  | _ => []

/-- A page on which the loop stops normally: no result list, or an empty
result list. -/
def stopsPage (r : SearchResponse) : Prop :=
  r.body = .noItems ∨ r.body = .items []

/-- A well-formed non-final page: a non-empty result list in which every
record carries a pull-request URL. -/
def goodPage (r : SearchResponse) : Prop :=
  ∃ records, r.body = .items records ∧ records ≠ []
    ∧ ∀ q ∈ records, q.pull_request_url ≠ none

/-- The page behaviour refuting C8 as stated: page 1 succeeds with one
record, while page 2 answers with status 403 and a JSON body carrying no
result list, such as a rate-limit error object. -/
def pagesNonSuccess : Nat → SearchResponse
  | 2 => { status := 403, body := .noItems }
  | _ => { status := 200,
           body := .items [{ url := "issue-1", pull_request_url := some "pull-1" }] }

/-- The content holder inside one choice of a model response. -/
structure ChoiceMessage where
  content : String
deriving DecidableEq, Repr

/-- One choice of a model response. -/
structure Choice where
  message : ChoiceMessage
deriving DecidableEq, Repr

/-- The parsed JSON body of a completion response; on success it carries
the choices list, and the body of a non-success response is never read by
the source. -/
structure Completion where
  choices : List Choice
deriving DecidableEq, Repr

/-- One upstream response of the completion endpoint: status code and
parsed body. -/
structure CompletionResponse where
  status : Nat
  body : Completion
deriving DecidableEq, Repr

/-- The dict returned by OpenAiProvider.get_completion on success,
providers.py lines 264 to 267. -/
structure CompletionResult where
  group_name : String
  completion : Completion
deriving DecidableEq, Repr

/-- How one call of get_completion ends: a returned result, a raised
RuntimeError carrying the unexpected status code, or no exit because the
retry loop consumed every available response. -/
inductive CompletionOutcome
  | result (r : CompletionResult)
  | fatal (status : Nat)
  | stalled
deriving DecidableEq, Repr

/-- The while loop of OpenAiProvider.get_completion, providers.py lines
247 to 273, driven by the stream of successive upstream responses for
this group: status 200 returns the named result, status 500 sleeps one
time unit and retries, and any other status raises. The second component
counts the slept time units. -/
def get_completion (group_name : String) :
    List CompletionResponse → CompletionOutcome × Nat
  | [] => (.stalled, 0)
  | r :: rest =>
    if r.status = 200 then
      (.result { group_name := group_name, completion := r.body }, 0)
    else if r.status = 500 then
      let next := get_completion group_name rest
      (next.1, next.2 + 1)
    else (.fatal r.status, 0)

/-- The state of one get_completion task inside the asyncio gather of
get_completions: still awaiting its next upstream response, returned with
a result, or terminated by a raise. -/
inductive TaskState
  | pending (group_name : String) (responses : List CompletionResponse)
  | finished (r : CompletionResult)
  | failed (status : Nat)
deriving DecidableEq, Repr

/-- Whether a task has returned a CompletionResult. -/
def TaskState.isFinished : TaskState → Bool
  | .finished _ => true
  | _ => false

/-- One cooperative resumption of a single completion task: consume its
next upstream response exactly as one iteration of the retry loop of
get_completion does; a task that is finished, failed, or waiting on a
stream with no response left is unchanged. -/
def stepTask : TaskState → TaskState
  | .pending g (q :: rest) =>
    if q.status = 200 then
      .finished { group_name := g, completion := q.body }
    else if q.status = 500 then .pending g rest
    else .failed q.status
  | .pending g [] => .pending g []
  | .finished r => .finished r
  | .failed s => .failed s

/-- Replace the element at one position of a list, leaving every other
position untouched. -/
def updateAt (f : α → α) : Nat → List α → List α
  | _, [] => []
  | 0, x :: xs => f x :: xs
  | n + 1, x :: xs => x :: updateAt f n xs

/-- Run the fan-out of get_completions under an explicit interleaving:
each schedule entry names the task that the event loop resumes next. -/
def runSched (sched : List Nat) (tasks : List TaskState) : List TaskState :=
  sched.foldl (fun ts i => updateAt stepTask i ts) tasks

/-- The task list spawned by get_completions, providers.py lines 278 to
284: one pending get_completion task per message group, in submission
order, each owning the response stream of its own group. -/
def initTasks (groups : List (String × List CompletionResponse)) : List TaskState :=
  groups.map (fun gp => .pending gp.1 gp.2)

/-- Whether the aggregate gather join has completed: every task of the
batch has returned its result. -/
def batchDone (tasks : List TaskState) : Bool :=
  tasks.all TaskState.isFinished

/-- The prompt configuration consumed by ReportGenerator, config.py lines
58 to 71: grounding, pull and overview prompt texts. -/
structure ReportConfiguration where
  grounding_prompt : String
  pull_prompt : String
  overview_prompt : String
deriving DecidableEq, Repr

/-- The dict built at report.py lines 134 to 137: the projection of one
completion into a url and analysis pair. -/
structure PullAnalysis where
  url : String
  analysis : String
deriving DecidableEq, Repr

/-- The final report dict of generate_summary_report, report.py lines 78
to 86: the three prompts, the summary text and the pull analyses. -/
structure Report where
  grounding : String
  pull : String
  overview : String
  summary : String
  pulls : List PullAnalysis
deriving DecidableEq, Repr

/-- OpenAiProvider.get_completions, providers.py lines 275 to 288: one
get_completion task per message group, gathered in submission order. The
upstream is modelled by one response stream per group name; theorem
fanout_reassembly shows that the gathered results do not depend on the
interleaving of the tasks, so this sequential model is faithful. -/
def get_completions (env : String → List CompletionResponse)
    (message_groups : List (String × List Message)) : List CompletionOutcome :=
  message_groups.map (fun gp => (get_completion gp.1 (env gp.1)).1)

/-- Python dict assignment d at k set to v: replaces the value in place
when the key is already present, otherwise appends the pair, preserving
insertion order. -/
def dictInsert (k : String) (v : α) : List (String × α) → List (String × α)
  | [] => [(k, v)]
  | (k', v') :: rest =>
    if k' = k then (k', v) :: rest else (k', v') :: dictInsert k v rest

/-- The per-pull message list built by generate_pulls_report, report.py
lines 102 to 114: the system grounding prompt, then the conversation
messages, then the fixed pull user prompt appended last. -/
def pull_group_messages (cfg : ReportConfiguration) (p : Pull) : List Message :=
  [{ role := "system", content := cfg.grounding_prompt }]
    ++ p.messages
    ++ [{ role := "user", content := cfg.pull_prompt }]

/-- The message_groups dict of generate_pulls_report, report.py lines 97
to 119, built by python dict assignment keyed by the pull url. -/
def pulls_message_groups (cfg : ReportConfiguration) (pulls : List Pull) :
    List (String × List Message) :=
  pulls.foldl (fun d p => dictInsert p.url (pull_group_messages cfg p) d) []

/-- The projection of the first choice message content used at report.py
lines 84 and 136; none models the raise on an empty choices list. -/
def first_choice_content (c : Completion) : Option String :=
  match c.choices with
  | [] => none
  | ch :: _ => some ch.message.content

/-- The loop body of report.py lines 127 to 142 for one gathered outcome:
a raised or stalled task, or a missing first choice, propagates as an
error. -/
def completion_to_pull_analysis : CompletionOutcome → Option PullAnalysis
  | .result r => (first_choice_content r.completion).map
      (fun a => { url := r.group_name, analysis := a })
  | _ => none

/-- The projection loop of report.py lines 126 to 142 over all gathered
completions, with exception propagation discarding the partial list. -/
def projectAll : List CompletionOutcome → Option (List PullAnalysis)
  | [] => some []
  | o :: rest =>
    match completion_to_pull_analysis o with
    | none => none
    | some pa => (projectAll rest).map (fun l => pa :: l)

/-- ReportGenerator.generate_pulls_report, report.py lines 90 to 144,
after the GitHub fetch: builds the message groups, gathers one completion
per group, and projects every completion into a PullAnalysis; none models
a run that raises or a retry loop that never returns. -/
def generate_pulls_report (cfg : ReportConfiguration)
    (env : String → List CompletionResponse) (pulls : List Pull) :
    Option (List PullAnalysis) :=
  projectAll (get_completions env (pulls_message_groups cfg pulls))

/-- The summary message list of generate_summary_report, report.py lines
45 to 64: the system grounding prompt, one assistant message per pull
analysis appended in order, then the overview user prompt. -/
def summary_messages (cfg : ReportConfiguration) (pulls : List PullAnalysis) :
    List Message :=
  (pulls.foldl
      (fun acc p => acc ++ [{ role := "assistant", content := p.analysis }])
      [{ role := "system", content := cfg.grounding_prompt }])
    ++ [{ role := "user", content := cfg.overview_prompt }]

/-- The single message group of generate_summary_report, report.py lines
69 to 71, keyed by the fixed name summary. -/
def summary_message_groups (cfg : ReportConfiguration)
    (pulls : List PullAnalysis) : List (String × List Message) :=
  [("summary", summary_messages cfg pulls)]

/-- ReportGenerator.generate_summary_report, report.py lines 42 to 88:
runs the single summary completion over the assembled analyses and builds
the report whose summary field is the first choice content of that
completion; none models a raise or a stalled retry loop. -/
def generate_summary_report (cfg : ReportConfiguration)
    (env : String → List CompletionResponse) (pulls : List PullAnalysis) :
    Option Report :=
  match get_completions env (summary_message_groups cfg pulls) with
  | [.result r] =>
    match first_choice_content r.completion with
    | some s => some { grounding := cfg.grounding_prompt, pull := cfg.pull_prompt,
                       overview := cfg.overview_prompt, summary := s, pulls := pulls }
    | none => none
  | _ => none

/-- ReportGenerator.generate_report, report.py lines 34 to 40: phase 2
runs on the completed output of phase 1, so the summary request is a
function of every finished per-pull analysis. -/
def generate_report (cfg : ReportConfiguration)
    (env : String → List CompletionResponse) (pulls : List Pull) :
    Option Report :=
  (generate_pulls_report cfg env pulls).bind (generate_summary_report cfg env)

/-- A JSON value, the shape of the configured data template that
get_completion copies and posts. -/
inductive JValue
  | str (s : String)
  | num (n : Int)
  | jbool (b : Bool)
  | null
  | arr (elems : List JValue)
  | obj (fields : List (String × JValue))

mutual

/-- The deep copy of a JSON value performed at providers.py line 230 by a
dump and parse round trip. -/
def jsonCopy : JValue → JValue
  | .str s => .str s
  | .num n => .num n
  | .jbool b => .jbool b
  | .null => .null
  | .arr elems => .arr (jsonCopyList elems)
  | .obj fields => .obj (jsonCopyFields fields)

/-- Deep copy of the element list of a JSON array. -/
def jsonCopyList : List JValue → List JValue
  | [] => []
  | v :: vs => jsonCopy v :: jsonCopyList vs

/-- Deep copy of the field list of a JSON object, the shape of the data
template dict. -/
def jsonCopyFields : List (String × JValue) → List (String × JValue)
  | [] => []
  | (k, v) :: fs => (k, jsonCopy v) :: jsonCopyFields fs

end

/-- Python dict lookup of one key, none when the key is absent. -/
def dictLookup (k : String) : List (String × α) → Option α
  | [] => none
  | (k', v) :: rest => if k' = k then some v else dictLookup k rest

/-- The JSON encoding of one chat message dict. -/
def encodeMessage (m : Message) : JValue :=
  .obj [("role", .str m.role), ("content", .str m.content)]

/-- The JSON encoding of the message list assigned to the messages key at
providers.py line 234. -/
def encodeMessages (ms : List Message) : JValue :=
  .arr (ms.map encodeMessage)

/-- The request body construction of get_completion, providers.py lines
229 to 234: deep copy the configured data template by a JSON round trip,
then assign the messages key on the copy; the stored template value is
only read, never written. -/
def completion_request_data (data_template : List (String × JValue))
    (messages : List Message) : List (String × JValue) :=
  dictInsert "messages" (encodeMessages messages) (jsonCopyFields data_template)

theorem get_comments_foldl_acc (comments : List Comment) (student_login : String)
    (acc : List Message) :
    comments.foldl
      (fun acc c =>
        match comment_to_message student_login c with
        | none => acc
        | some m => acc ++ [m])
      acc = acc ++ comments.filterMap (comment_to_message student_login) := by
  induction comments generalizing acc with
  | nil => simp
  | cons c cs ih =>
    simp only [List.foldl_cons, List.filterMap_cons]
    cases h : comment_to_message student_login c with
    | none => simp [h, ih]
    | some m => simp [h, ih]

theorem get_comments_eq_filterMap (comments : List Comment) (student_login : String) :
    get_comments comments student_login
      = comments.filterMap (comment_to_message student_login) := by
  simpa using get_comments_foldl_acc comments student_login []

theorem comment_to_message_content_ne_empty (student_login : String) (c : Comment)
    (m : Message) (h : comment_to_message student_login c = some m) :
    m.content ≠ "" := by
  unfold comment_to_message at h
  by_cases hf : isFalsy c.body
  · simp [hf] at h
  · simp only [hf, Bool.false_eq_true, if_false, Option.some.injEq] at h
    cases hb : c.body with
    | none => simp [isFalsy, hb] at hf
    | some s =>
      subst h
      simp only [hb, Option.getD_some, ne_eq]
      intro hs
      simp [isFalsy, hb, hs] at hf

/-- C5: for every fetched conversation, the resulting message sequence is
the pull body, as the first message and present only when the body is not
falsy, followed by the general comments in server-returned order, followed
by the review comments in server-returned order; and no message with empty
content ever appears, since empty bodies and empty comment bodies are
dropped rather than raising. -/
theorem conversation_message_order (url : String) (pr : PullRequest) :
    (get_pull_request_pull url pr).messages =
      (if isFalsy pr.body then []
       else [{ role := "user", content := pr.body.getD "" }])
        ++ pr.comments.filterMap (comment_to_message pr.user_login)
        ++ pr.review_comments.filterMap (comment_to_message pr.user_login)
    ∧ ∀ m ∈ (get_pull_request_pull url pr).messages, m.content ≠ "" := by
  have hmsgs : (get_pull_request_pull url pr).messages =
      (if isFalsy pr.body then []
       else [{ role := "user", content := pr.body.getD "" }])
        ++ pr.comments.filterMap (comment_to_message pr.user_login)
        ++ pr.review_comments.filterMap (comment_to_message pr.user_login) := by
    unfold get_pull_request_pull
    simp only [get_comments_eq_filterMap]
    by_cases hf : isFalsy pr.body <;> simp [hf, List.append_assoc]
  refine ⟨hmsgs, ?_⟩
  intro m hm
  rw [hmsgs] at hm
  simp only [List.mem_append] at hm
  rcases hm with (hm | hm) | hm
  · by_cases hf : isFalsy pr.body
    · simp [hf] at hm
    · simp only [hf, Bool.false_eq_true, if_false, List.mem_singleton] at hm
      subst hm
      cases hb : pr.body with
      | none => simp [isFalsy, hb] at hf
      | some s =>
        simp only [hb, Option.getD_some, ne_eq]
        intro hs
        simp [isFalsy, hb, hs] at hf
  · rcases List.mem_filterMap.mp hm with ⟨c, _, hc⟩
    exact comment_to_message_content_ne_empty pr.user_login c m hc
  · rcases List.mem_filterMap.mp hm with ⟨c, _, hc⟩
    exact comment_to_message_content_ne_empty pr.user_login c m hc

theorem conversation_message_order_witness :
    (get_pull_request_pull "u1"
        { user_login := "alice", body := some "hello",
          comments := [{ user_login := "alice", body := some "q" },
                       { user_login := "bob", body := none },
                       { user_login := "bob", body := some "a" }],
          review_comments := [{ user_login := "bob", body := some "" },
                              { user_login := "alice", body := some "r" }] }).messages =
      (if isFalsy (some "hello") then []
       else [{ role := "user", content := (some "hello" : Option String).getD "" }])
        ++ [{ user_login := "alice", body := some "q" },
            { user_login := "bob", body := none },
            { user_login := "bob", body := some "a" }].filterMap
              (comment_to_message "alice")
        ++ [{ user_login := "bob", body := some "" },
            { user_login := "alice", body := some "r" }].filterMap
              (comment_to_message "alice")
    ∧ ({ role := "user", content := "hello" } : Message).content ≠ "" := by
  constructor
  · exact (conversation_message_order "u1"
      { user_login := "alice", body := some "hello",
        comments := [{ user_login := "alice", body := some "q" },
                     { user_login := "bob", body := none },
                     { user_login := "bob", body := some "a" }],
        review_comments := [{ user_login := "bob", body := some "" },
                            { user_login := "alice", body := some "r" }] }).1
  · exact (conversation_message_order "u1"
      { user_login := "alice", body := some "hello",
        comments := [{ user_login := "alice", body := some "q" },
                     { user_login := "bob", body := none },
                     { user_login := "bob", body := some "a" }],
        review_comments := [{ user_login := "bob", body := some "" },
                            { user_login := "alice", body := some "r" }] }).2
      { role := "user", content := "hello" } (by decide)

/-- C6: in every fetched conversation, a message produced from a comment
has role user exactly when the comment author login equals the login of
the original requester and role assistant otherwise; and the pull body
message, when present, is the first message and has role user. -/
theorem role_assignment (url : String) (pr : PullRequest) :
    (∀ c ∈ pr.comments ++ pr.review_comments, ∀ m,
        comment_to_message pr.user_login c = some m →
        (m.role = "user" ↔ c.user_login = pr.user_login))
    ∧ (isFalsy pr.body = false →
        (get_pull_request_pull url pr).messages.head? =
          some { role := "user", content := pr.body.getD "" }) := by
  constructor
  · intro c _ m hm
    unfold comment_to_message at hm
    by_cases hf : isFalsy c.body
    · simp [hf] at hm
    · simp only [hf, Bool.false_eq_true, if_false, Option.some.injEq] at hm
      subst hm
      by_cases hlog : c.user_login = pr.user_login
      · simp [hlog]
      · simp only [hlog, if_false, iff_false]
        intro hcon
        exact absurd hcon (by decide)
  · intro hf
    unfold get_pull_request_pull
    simp [hf]

theorem role_assignment_witness :
    (({ role := "assistant", content := "a" } : Message).role = "user"
        ↔ ("bob" : String) = "alice")
    ∧ (get_pull_request_pull "u2"
          { user_login := "alice", body := some "b",
            comments := [{ user_login := "bob", body := some "a" }],
            review_comments := [] }).messages.head? =
        some { role := "user", content := (some "b" : Option String).getD "" } := by
  constructor
  · exact (role_assignment "u2"
      { user_login := "alice", body := some "b",
        comments := [{ user_login := "bob", body := some "a" }],
        review_comments := [] }).1
      { user_login := "bob", body := some "a" } (by decide)
      { role := "assistant", content := "a" } (by decide)
  · exact (role_assignment "u2"
      { user_login := "alice", body := some "b",
        comments := [{ user_login := "bob", body := some "a" }],
        review_comments := [] }).2 (by decide)

theorem extract_urls_eq_filterMap (records : List IssueRecord)
    (h : ∀ q ∈ records, q.pull_request_url ≠ none) :
    extract_urls records = some (records.filterMap (fun q => q.pull_request_url)) := by
  induction records with
  | nil => rfl
  | cons r rest ih =>
    have hr := h r (by simp)
    cases hu : r.pull_request_url with
    | none => exact absurd hu hr
    | some u =>
      have hrest := ih (fun q hq => h q (by simp [hq]))
      simp [extract_urls, hu, hrest, List.filterMap_cons]

theorem get_pull_requests_from_reach (pages : Nat → SearchResponse) :
    ∀ (k p : Nat), (∀ m, p ≤ m → m < p + k → goodPage (pages m)) →
      ∀ fuel acc, k < fuel →
        get_pull_requests_from pages fuel p acc =
          get_pull_requests_from pages (fuel - k) (p + k)
            (acc ++ (List.range' p k).flatMap (pageUrls pages)) := by
  intro k
  induction k with
  | zero => intro p _ fuel acc _; simp
  | succ k ih =>
    intro p hwf fuel acc hfuel
    obtain ⟨records, hbody, hne, hurls⟩ := hwf p (Nat.le_refl p) (by omega)
    obtain ⟨f, rfl⟩ : ∃ f, fuel = f + 1 := ⟨fuel - 1, by omega⟩
    have hextract := extract_urls_eq_filterMap records hurls
    have hpage : pageUrls pages p = records.filterMap (fun q => q.pull_request_url) := by
      unfold pageUrls
      rw [hbody]
    have hstep : get_pull_requests_from pages (f + 1) p acc =
        get_pull_requests_from pages f (p + 1)
          (acc ++ records.filterMap (fun q => q.pull_request_url)) := by
      conv_lhs => rw [get_pull_requests_from]
      rw [hbody]
      simp [hne, hextract]
    rw [hstep, ih (p + 1) (fun m hm hm' => hwf m (by omega) (by omega)) f _ (by omega)]
    rw [List.range'_succ p k 1]
    have harr : p + 1 + k = p + (k + 1) := by omega
    have hfuel' : f - k = f + 1 - (k + 1) := by omega
    rw [harr, hfuel', List.flatMap_cons, hpage, List.append_assoc]

/-- C8 amended: the issue search requests pages starting at page 1 and
increments the page number after each successful request; it stops as soon
as a page body parses without a result list or with an empty result list,
regardless of that response status code, returning the pull-request API
URLs (not the issue URLs) collected from the earlier pages in encounter
order; a body that is not JSON, or an issue record without a paired
pull-request URL, propagates as a fatal error that discards all URLs
collected so far. -/
theorem search_pagination (pages : Nat → SearchResponse) (n : Nat) (hn : 1 ≤ n)
    (hwf : ∀ m, 1 ≤ m → m < n → goodPage (pages m)) (fuel : Nat) (hfuel : n ≤ fuel) :
    (stopsPage (pages n) →
      get_pull_requests pages fuel =
        some (.ok ((List.range' 1 (n - 1)).flatMap (pageUrls pages))))
    ∧ ((pages n).body = .unparseable →
      get_pull_requests pages fuel = some (.error "response body is not JSON"))
    ∧ (∀ records, (pages n).body = .items records → extract_urls records = none →
      get_pull_requests pages fuel = some (.error "missing pull_request url")) := by
  have hreach : get_pull_requests pages fuel =
      get_pull_requests_from pages (fuel - (n - 1)) n
        ([] ++ (List.range' 1 (n - 1)).flatMap (pageUrls pages)) := by
    have := get_pull_requests_from_reach pages (n - 1) 1
      (fun m hm hm' => hwf m hm (by omega)) fuel [] (by omega)
    unfold get_pull_requests
    rw [this]
    congr 1
    omega
  obtain ⟨f, hf⟩ : ∃ f, fuel - (n - 1) = f + 1 := ⟨fuel - (n - 1) - 1, by omega⟩
  rw [hf] at hreach
  refine ⟨?_, ?_, ?_⟩
  · rintro (hstop | hstop) <;>
      · rw [hreach]
        conv_lhs => rw [get_pull_requests_from]
        rw [hstop]
        simp
  · intro hbad
    rw [hreach]
    conv_lhs => rw [get_pull_requests_from]
    rw [hbad]
  · intro records hbody hnone
    have hne : records ≠ [] := by
      intro hnil
      rw [hnil] at hnone
      simp [extract_urls] at hnone
    rw [hreach]
    conv_lhs => rw [get_pull_requests_from]
    rw [hbody]
    simp [hne, hnone]

theorem search_pagination_witness :
    get_pull_requests
        (fun m => if m = 1 then
            { status := 200,
              body := .items [{ url := "i1", pull_request_url := some "p1" }] }
          else { status := 200, body := .noItems }) 3 =
      some (.ok ((List.range' 1 1).flatMap (pageUrls
        (fun m => if m = 1 then
            { status := 200,
              body := .items [{ url := "i1", pull_request_url := some "p1" }] }
          else { status := 200, body := .noItems })))) := by
  exact (search_pagination
    (fun m => if m = 1 then
        { status := 200,
          body := .items [{ url := "i1", pull_request_url := some "p1" }] }
      else { status := 200, body := .noItems })
    2 (by omega)
    (by
      intro m hm hm'
      have : m = 1 := by omega
      subst this
      exact ⟨[{ url := "i1", pull_request_url := some "p1" }], rfl, by simp, by
        intro q hq
        simp at hq
        subst hq
        simp⟩)
    3 (by omega)).1 (Or.inl rfl)

/-- C8 counterexample: the source never looks at the status code of a
search response, so the non-success page 2 response ends pagination
normally and the call returns the partial url list collected from page 1
instead of propagating a fatal error. -/
theorem search_nonsuccess_partial_result :
    (pagesNonSuccess 2).status = 403
    ∧ get_pull_requests pagesNonSuccess 5 = some (.ok ["pull-1"]) := by
  exact ⟨rfl, rfl⟩

theorem get_completion_result_group_name (g : String)
    (responses : List CompletionResponse) (r : CompletionResult)
    (h : (get_completion g responses).1 = .result r) : r.group_name = g := by
  induction responses with
  | nil => simp [get_completion] at h
  | cons q rest ih =>
    unfold get_completion at h
    by_cases h200 : q.status = 200
    · simp only [h200, if_true] at h
      cases h
      rfl
    · by_cases h500 : q.status = 500
      · simp only [h200, if_false, h500, if_true] at h
        exact ih h
      · simp [h200, h500] at h

/-- C3: for every call of the completion operation, an upstream status 200
returns the named CompletionResult built from that response body, status
500 retries after exactly one further unit of backoff sleep, any other
status raises the unexpected-status error, and a raise can only be caused
by a response whose status is neither 200 nor 500, reached after a prefix
of overloaded responses. -/
theorem completion_status_handling (g : String) (q : CompletionResponse)
    (rest : List CompletionResponse) :
    (q.status = 200 →
      get_completion g (q :: rest) =
        (.result { group_name := g, completion := q.body }, 0))
    ∧ (q.status = 500 →
      get_completion g (q :: rest) =
        ((get_completion g rest).1, (get_completion g rest).2 + 1))
    ∧ (q.status ≠ 200 → q.status ≠ 500 →
      get_completion g (q :: rest) = (.fatal q.status, 0))
    ∧ (∀ responses : List CompletionResponse, ∀ s,
        (get_completion g responses).1 = .fatal s →
        s ≠ 200 ∧ s ≠ 500 ∧
          ∃ before bad after, responses = before ++ bad :: after
            ∧ (∀ b ∈ before, b.status = 500) ∧ bad.status = s) := by
  refine ⟨?_, ?_, ?_, ?_⟩
  · intro h200
    simp [get_completion, h200]
  · intro h500
    have hne : q.status ≠ 200 := by omega
    simp [get_completion, hne, h500]
  · intro h200 h500
    simp [get_completion, h200, h500]
  · intro responses
    induction responses with
    | nil => intro s h; simp [get_completion] at h
    | cons p ps ih =>
      intro s h
      unfold get_completion at h
      by_cases h200 : p.status = 200
      · rw [if_pos h200] at h
        simp at h
      · by_cases h500 : p.status = 500
        · rw [if_neg h200, if_pos h500] at h
          have h' : (get_completion g ps).1 = .fatal s := h
          obtain ⟨hs1, hs2, before, bad, after, heq, hpre, hbad⟩ := ih s h'
          exact ⟨hs1, hs2, p :: before, bad, after, by simp [heq], by
            intro b hb
            rcases List.mem_cons.mp hb with hb | hb
            · rw [hb]; exact h500
            · exact hpre b hb, hbad⟩
        · rw [if_neg h200, if_neg h500] at h
          have h' : CompletionOutcome.fatal p.status = CompletionOutcome.fatal s := h
          have hs : p.status = s := by simpa using h'
          subst hs
          exact ⟨h200, h500, [], p, ps, rfl, by simp, rfl⟩

theorem completion_status_handling_witness :
    get_completion "g1" [{ status := 200, body := { choices := [] } }] =
      (CompletionOutcome.result
        { group_name := "g1", completion := { choices := [] } }, 0)
    ∧ get_completion "g1" [{ status := 500, body := { choices := [] } }] =
      ((get_completion "g1" []).1, (get_completion "g1" []).2 + 1)
    ∧ get_completion "g1" [{ status := 503, body := { choices := [] } }] =
      (CompletionOutcome.fatal 503, 0)
    ∧ ((503 : Nat) ≠ 200 ∧ (503 : Nat) ≠ 500 ∧
        ∃ before bad after,
          ([{ status := 503, body := { choices := [] } }]
            : List CompletionResponse) = before ++ bad :: after
          ∧ (∀ b ∈ before, b.status = 500) ∧ bad.status = 503) := by
  refine ⟨?_, ?_, ?_, ?_⟩
  · exact (completion_status_handling "g1"
      { status := 200, body := { choices := [] } } []).1 rfl
  · exact (completion_status_handling "g1"
      { status := 500, body := { choices := [] } } []).2.1 rfl
  · exact (completion_status_handling "g1"
      { status := 503, body := { choices := [] } } []).2.2.1 (by decide) (by decide)
  · exact (completion_status_handling "g1"
      { status := 503, body := { choices := [] } } []).2.2.2
      [{ status := 503, body := { choices := [] } }] 503 rfl

/-- C4: when the upstream answers with some finite number of overloaded
500 responses followed by a 200 success, the call returns exactly the one
CompletionResult for this group whose completion is the body of the final
successful response, the same result as an immediate first-attempt
success. -/
theorem retry_then_success (g : String) (burst : List CompletionResponse)
    (hburst : ∀ b ∈ burst, b.status = 500) (ok : CompletionResponse)
    (hok : ok.status = 200) (rest : List CompletionResponse) :
    (get_completion g (burst ++ ok :: rest)).1 =
      .result { group_name := g, completion := ok.body }
    ∧ (get_completion g (burst ++ ok :: rest)).1 =
      (get_completion g (ok :: rest)).1 := by
  have hrun : (get_completion g (burst ++ ok :: rest)).1 =
      (get_completion g (ok :: rest)).1 := by
    induction burst with
    | nil => rfl
    | cons b bs ih =>
      have hb := hburst b (by simp)
      have hne : b.status ≠ 200 := by omega
      have hbs := ih (fun x hx => hburst x (by simp [hx]))
      simp only [List.cons_append]
      unfold get_completion
      simp only [hne, if_false, hb, if_true]
      exact hbs
  refine ⟨?_, hrun⟩
  rw [hrun]
  simp [get_completion, hok]

theorem retry_then_success_witness :
    (get_completion "g2"
        [{ status := 500, body := { choices := [] } },
         { status := 500, body := { choices := [] } },
         { status := 200,
           body := { choices := [{ message := { content := "done" } }] } }]).1 =
      CompletionOutcome.result
        { group_name := "g2",
          completion := { choices := [{ message := { content := "done" } }] } }
    ∧ (get_completion "g2"
        [{ status := 500, body := { choices := [] } },
         { status := 500, body := { choices := [] } },
         { status := 200,
           body := { choices := [{ message := { content := "done" } }] } }]).1 =
      (get_completion "g2"
        [{ status := 200,
           body := { choices := [{ message := { content := "done" } }] } }]).1 := by
  exact retry_then_success "g2"
    [{ status := 500, body := { choices := [] } },
     { status := 500, body := { choices := [] } }]
    (by
      intro b hb
      rcases List.mem_cons.mp hb with hb | hb
      · rw [hb]
      · rcases List.mem_cons.mp hb with hb | hb
        · rw [hb]
        · simp at hb)
    { status := 200, body := { choices := [{ message := { content := "done" } }] } }
    rfl []

theorem updateAt_length (i : Nat) (f : α → α) (l : List α) :
    (updateAt f i l).length = l.length := by
  induction l generalizing i with
  | nil => cases i <;> rfl
  | cons x xs ih =>
    cases i with
    | zero => rfl
    | succ n => simp [updateAt, ih]

theorem updateAt_getElem? (i j : Nat) (f : α → α) (l : List α) :
    (updateAt f i l)[j]? = if j = i then (l[j]?).map f else l[j]? := by
  induction l generalizing i j with
  | nil => simp [updateAt]
  | cons x xs ih =>
    cases i with
    | zero =>
      cases j with
      | zero => simp [updateAt]
      | succ k => simp [updateAt]
    | succ n =>
      cases j with
      | zero => simp [updateAt]
      | succ k =>
        simp only [updateAt, List.getElem?_cons_succ]
        rw [ih n k]
        by_cases hk : k = n <;> simp [hk]

theorem runSched_length (sched : List Nat) (tasks : List TaskState) :
    (runSched sched tasks).length = tasks.length := by
  induction sched generalizing tasks with
  | nil => rfl
  | cons i sched ih =>
    show (runSched sched (updateAt stepTask i tasks)).length = tasks.length
    rw [ih, updateAt_length]

theorem runSched_getElem? (sched : List Nat) (tasks : List TaskState) (j : Nat) :
    (runSched sched tasks)[j]? = (tasks[j]?).map (stepTask^[sched.count j]) := by
  induction sched generalizing tasks with
  | nil => simp [runSched]
  | cons i sched ih =>
    show (runSched sched (updateAt stepTask i tasks))[j]?
        = (tasks[j]?).map (stepTask^[(i :: sched).count j])
    rw [ih, updateAt_getElem?]
    by_cases hij : j = i
    · subst hij
      rw [if_pos rfl]
      have hc : (j :: sched).count j = sched.count j + 1 := by
        simp [List.count_cons]
      rw [hc, Option.map_map]
      rfl
    · rw [if_neg hij]
      have hc : (i :: sched).count j = sched.count j := by
        simp [List.count_cons, Ne.symm hij]
      rw [hc]

theorem stepTask_iterate_finished (r : CompletionResult) (n : Nat) :
    stepTask^[n] (.finished r) = .finished r := by
  induction n with
  | zero => rfl
  | succ n ih => rw [Function.iterate_succ_apply]; exact ih

theorem stepTask_finished_stable (x : TaskState) (m n : Nat) (r : CompletionResult)
    (hm : stepTask^[m] x = .finished r) (hmn : m ≤ n) :
    stepTask^[n] x = .finished r := by
  obtain ⟨k, rfl⟩ := Nat.exists_eq_add_of_le hmn
  rw [Nat.add_comm, Function.iterate_add_apply, hm, stepTask_iterate_finished]

theorem stepTask_finished_unique (x : TaskState) (m n : Nat) (r r' : CompletionResult)
    (hm : stepTask^[m] x = .finished r) (hn : stepTask^[n] x = .finished r') :
    r = r' := by
  rcases Nat.le_total m n with h | h
  · have hstab := stepTask_finished_stable x m n r hm h
    exact TaskState.finished.inj (hstab.symm.trans hn)
  · have hstab := stepTask_finished_stable x n m r' hn h
    exact (TaskState.finished.inj (hstab.symm.trans hm)).symm

theorem stepTask_iterate_result (g : String) (responses : List CompletionResponse)
    (n : Nat) (r : CompletionResult)
    (h : stepTask^[n] (.pending g responses) = .finished r) :
    (get_completion g responses).1 = .result r := by
  induction n generalizing responses with
  | zero => simp at h
  | succ n ih =>
    rw [Function.iterate_succ_apply] at h
    cases responses with
    | nil =>
      rw [show stepTask (.pending g []) = .pending g [] from rfl] at h
      exact ih [] h
    | cons q rest =>
      by_cases h200 : q.status = 200
      · rw [show stepTask (.pending g (q :: rest))
            = .finished { group_name := g, completion := q.body } by
            simp [stepTask, h200]] at h
        rw [stepTask_iterate_finished] at h
        have hr := TaskState.finished.inj h
        unfold get_completion
        rw [if_pos h200, ← hr]
      · by_cases h500 : q.status = 500
        · rw [show stepTask (.pending g (q :: rest)) = .pending g rest by
              simp [stepTask, h200, h500]] at h
          have := ih rest h
          unfold get_completion
          rw [if_neg h200, if_pos h500]
          exact this
        · rw [show stepTask (.pending g (q :: rest)) = .failed q.status by
              simp [stepTask, h200, h500]] at h
          have : ∀ k, stepTask^[k] (TaskState.failed q.status) = .failed q.status := by
            intro k
            induction k with
            | zero => rfl
            | succ k ihk => rw [Function.iterate_succ_apply]; exact ihk
          rw [this n] at h
          simp at h

theorem runSched_finished_slot (groups : List (String × List CompletionResponse))
    (sched : List Nat)
    (hdone : ∀ t ∈ runSched sched (initTasks groups), t.isFinished = true)
    (i : Nat) (hi : i < groups.length) :
    ∃ r : CompletionResult,
      (runSched sched (initTasks groups))[i]? = some (.finished r)
      ∧ stepTask^[sched.count i]
          (.pending (groups.get ⟨i, hi⟩).1 (groups.get ⟨i, hi⟩).2) = .finished r
      ∧ (get_completion (groups.get ⟨i, hi⟩).1 (groups.get ⟨i, hi⟩).2).1 = .result r := by
  have hinit : (initTasks groups)[i]? =
      some (.pending (groups.get ⟨i, hi⟩).1 (groups.get ⟨i, hi⟩).2) := by
    unfold initTasks
    rw [List.getElem?_map, List.getElem?_eq_getElem hi]
    rfl
  have hrun := runSched_getElem? sched (initTasks groups) i
  rw [hinit] at hrun
  have hmem : stepTask^[sched.count i]
      (.pending (groups.get ⟨i, hi⟩).1 (groups.get ⟨i, hi⟩).2)
      ∈ runSched sched (initTasks groups) :=
    List.getElem?_mem hrun
  have hfin := hdone _ hmem
  cases hstate : stepTask^[sched.count i]
      (TaskState.pending (groups.get ⟨i, hi⟩).1 (groups.get ⟨i, hi⟩).2) with
  | pending g rs =>
    rw [hstate] at hfin
    simp [TaskState.isFinished] at hfin
  | failed s =>
    rw [hstate] at hfin
    simp [TaskState.isFinished] at hfin
  | finished r =>
    refine ⟨r, ?_, rfl, stepTask_iterate_result _ _ _ r hstate⟩
    rw [hrun, Option.map_some', hstate]

/-- C1: fan-out reassembly: for every mapping of distinct group names to
message streams, a gather of the per-group completion tasks that runs
every task to completion has exactly one finished entry per submitted
group, in submission order, and the result in each slot carries the group
name of the group that produced it; moreover the final task states agree
for any two interleavings that both complete, so the reassembled
collection is independent of the order in which the individual
completions finish. -/
theorem fanout_reassembly (groups : List (String × List CompletionResponse))
    (_hkeys : (groups.map Prod.fst).Nodup) (sched sched' : List Nat)
    (hdone : ∀ t ∈ runSched sched (initTasks groups), t.isFinished = true)
    (hdone' : ∀ t ∈ runSched sched' (initTasks groups), t.isFinished = true) :
    (runSched sched (initTasks groups)).length = groups.length
    ∧ (∀ i, ∀ hi : i < groups.length, ∃ r : CompletionResult,
        (runSched sched (initTasks groups))[i]? = some (.finished r)
        ∧ r.group_name = (groups.get ⟨i, hi⟩).1)
    ∧ runSched sched (initTasks groups) = runSched sched' (initTasks groups) := by
  have hlen : (runSched sched (initTasks groups)).length = groups.length := by
    rw [runSched_length]
    unfold initTasks
    rw [List.length_map]
  have hlen' : (runSched sched' (initTasks groups)).length = groups.length := by
    rw [runSched_length]
    unfold initTasks
    rw [List.length_map]
  refine ⟨hlen, ?_, ?_⟩
  · intro i hi
    obtain ⟨r, hslot, _, hres⟩ := runSched_finished_slot groups sched hdone i hi
    exact ⟨r, hslot, get_completion_result_group_name _ _ r hres⟩
  · apply List.ext_getElem?
    intro i
    by_cases hi : i < groups.length
    · obtain ⟨r, hslot, hiter, _⟩ := runSched_finished_slot groups sched hdone i hi
      obtain ⟨r', hslot', hiter', _⟩ := runSched_finished_slot groups sched' hdone' i hi
      rw [hslot, hslot',
        stepTask_finished_unique _ _ _ r r' hiter hiter']
    · rw [List.getElem?_eq_none (by omega : (runSched sched (initTasks groups)).length ≤ i),
        List.getElem?_eq_none (by omega : (runSched sched' (initTasks groups)).length ≤ i)]

theorem fanout_reassembly_witness :
    (runSched [1, 0, 1] (initTasks
        [("a", [{ status := 200, body := { choices := [] } }]),
         ("b", [{ status := 500, body := { choices := [] } },
                { status := 200, body := { choices := [] } }])])).length = 2
    ∧ (∃ r : CompletionResult,
        (runSched [1, 0, 1] (initTasks
            [("a", [{ status := 200, body := { choices := [] } }]),
             ("b", [{ status := 500, body := { choices := [] } },
                    { status := 200, body := { choices := [] } }])]))[0]?
          = some (.finished r)
        ∧ r.group_name = "a")
    ∧ runSched [1, 0, 1] (initTasks
        [("a", [{ status := 200, body := { choices := [] } }]),
         ("b", [{ status := 500, body := { choices := [] } },
                { status := 200, body := { choices := [] } }])])
      = runSched [0, 1, 1] (initTasks
        [("a", [{ status := 200, body := { choices := [] } }]),
         ("b", [{ status := 500, body := { choices := [] } },
                { status := 200, body := { choices := [] } }])]) := by
  have h := fanout_reassembly
    [("a", [{ status := 200, body := { choices := [] } }]),
     ("b", [{ status := 500, body := { choices := [] } },
            { status := 200, body := { choices := [] } }])]
    (by decide) [1, 0, 1] [0, 1, 1] (by decide) (by decide)
  exact ⟨h.1, h.2.1 0 (by decide), h.2.2⟩

/-- C10: isolation of a stuck completion group: the final state of every
task slot depends only on the initial state of that slot, so after any
interleaving the slots of the original groups hold exactly the states
they reach in the batch that does not contain the stuck group; and a
group whose response stream consists only of overloaded 500 answers never
finishes, so the aggregate gather join of its batch never completes while
the sibling results are unaffected. -/
theorem stuck_group_isolation (groups : List (String × List CompletionResponse))
    (gname : String) (stuckStream : List CompletionResponse)
    (hstuck : ∀ q ∈ stuckStream, q.status = 500) :
    (∀ (sched : List Nat) (i : Nat), i < groups.length →
      (runSched sched (initTasks (groups ++ [(gname, stuckStream)])))[i]?
        = (runSched sched (initTasks groups))[i]?)
    ∧ (∀ sched : List Nat,
        batchDone (runSched sched
          (initTasks (groups ++ [(gname, stuckStream)]))) = false) := by
  have hnotfin : ∀ (stream : List CompletionResponse),
      (∀ q ∈ stream, q.status = 500) → ∀ n : Nat,
      (stepTask^[n] (.pending gname stream)).isFinished = false := by
    intro stream hs n
    induction n generalizing stream with
    | zero => rfl
    | succ n ih =>
      rw [Function.iterate_succ_apply]
      cases stream with
      | nil => exact ih [] (by simp)
      | cons q rest =>
        have hq := hs q (by simp)
        have h200 : ¬ q.status = 200 := by omega
        rw [show stepTask (.pending gname (q :: rest)) = .pending gname rest by
          simp [stepTask, h200, hq]]
        exact ih rest (fun p hp => hs p (by simp [hp]))
  constructor
  · intro sched i hi
    rw [runSched_getElem?, runSched_getElem?]
    congr 1
    unfold initTasks
    rw [List.getElem?_map, List.getElem?_map]
    congr 1
    rw [List.getElem?_append]
    simp [hi]
  · intro sched
    set n := groups.length with hn
    have hinit : (initTasks (groups ++ [(gname, stuckStream)]))[n]? =
        some (.pending gname stuckStream) := by
      unfold initTasks
      rw [List.getElem?_map]
      have : (groups ++ [(gname, stuckStream)])[n]? = some (gname, stuckStream) := by
        rw [List.getElem?_append_right (by omega)]
        simp [hn]
      rw [this]
      rfl
    have hrun := runSched_getElem? sched (initTasks (groups ++ [(gname, stuckStream)])) n
    rw [hinit] at hrun
    have hmem : stepTask^[sched.count n] (.pending gname stuckStream)
        ∈ runSched sched (initTasks (groups ++ [(gname, stuckStream)])) :=
      List.getElem?_mem hrun
    cases hbd : batchDone (runSched sched (initTasks (groups ++ [(gname, stuckStream)]))) with
    | false => rfl
    | true =>
      have hall := List.all_eq_true.mp hbd _ hmem
      rw [hnotfin stuckStream hstuck (sched.count n)] at hall
      exact absurd hall (by decide)

theorem stuck_group_isolation_witness :
    (runSched [0, 1, 1] (initTasks
        ([("a", [{ status := 200, body := { choices := [] } }])]
          ++ [("z", [{ status := 500, body := { choices := [] } }])])))[0]?
      = (runSched [0, 1, 1] (initTasks
          [("a", [{ status := 200, body := { choices := [] } }])]))[0]?
    ∧ batchDone (runSched [0, 1, 1] (initTasks
        ([("a", [{ status := 200, body := { choices := [] } }])]
          ++ [("z", [{ status := 500, body := { choices := [] } }])]))) = false := by
  have h := stuck_group_isolation
    [("a", [{ status := 200, body := { choices := [] } }])]
    "z" [{ status := 500, body := { choices := [] } }]
    (by decide)
  exact ⟨h.1 [0, 1, 1] 0 (by decide), h.2 [0, 1, 1]⟩

theorem summary_foldl_acc (pulls : List PullAnalysis) (acc : List Message) :
    pulls.foldl
        (fun acc p => acc ++ [{ role := "assistant", content := p.analysis }]) acc
      = acc ++ pulls.map
          (fun p => { role := "assistant", content := p.analysis }) := by
  induction pulls generalizing acc with
  | nil => simp
  | cons p ps ih => simp [ih]

/-- C2: the summary phase consumes the complete list of phase 1 pull
analyses: it builds exactly one MessageGroup, named summary, whose
payload is one system message with the grounding prompt, then one
assistant message per PullAnalysis carrying that analysis text in the
order the pull analyses were produced, then one final user message with
the overview prompt; and when the summary completion returns, the summary
field of the report is the first choice message content of that
completion, over the untouched analysis list. -/
theorem summary_report_assembly (cfg : ReportConfiguration)
    (env : String → List CompletionResponse) (pulls : List PullAnalysis)
    (r : CompletionResult) (s : String)
    (hres : (get_completion "summary" (env "summary")).1 = .result r)
    (hchoice : first_choice_content r.completion = some s) :
    summary_message_groups cfg pulls
      = [("summary",
          [{ role := "system", content := cfg.grounding_prompt }]
            ++ pulls.map (fun p => { role := "assistant", content := p.analysis })
            ++ [{ role := "user", content := cfg.overview_prompt }])]
    ∧ generate_summary_report cfg env pulls
      = some { grounding := cfg.grounding_prompt, pull := cfg.pull_prompt,
               overview := cfg.overview_prompt, summary := s, pulls := pulls } := by
  have hmsg : summary_messages cfg pulls
      = [{ role := "system", content := cfg.grounding_prompt }]
        ++ pulls.map (fun p => { role := "assistant", content := p.analysis })
        ++ [{ role := "user", content := cfg.overview_prompt }] := by
    unfold summary_messages
    rw [summary_foldl_acc]
  constructor
  · unfold summary_message_groups
    rw [hmsg]
  · unfold generate_summary_report get_completions summary_message_groups
    simp [hres, hchoice]

theorem summary_report_assembly_witness :
    summary_message_groups
        { grounding_prompt := "G", pull_prompt := "P", overview_prompt := "O" }
        [{ url := "u1", analysis := "a1" }]
      = [("summary",
          [{ role := "system", content := "G" }]
            ++ ([{ url := "u1", analysis := "a1" }] : List PullAnalysis).map
                (fun p => { role := "assistant", content := p.analysis })
            ++ [{ role := "user", content := "O" }])]
    ∧ generate_summary_report
        { grounding_prompt := "G", pull_prompt := "P", overview_prompt := "O" }
        (fun _ =>
          [{ status := 200,
             body := { choices := [{ message := { content := "sum" } }] } }])
        [{ url := "u1", analysis := "a1" }]
      = some { grounding := "G", pull := "P", overview := "O", summary := "sum",
               pulls := [{ url := "u1", analysis := "a1" }] } := by
  exact summary_report_assembly
    { grounding_prompt := "G", pull_prompt := "P", overview_prompt := "O" }
    (fun _ =>
      [{ status := 200,
         body := { choices := [{ message := { content := "sum" } }] } }])
    [{ url := "u1", analysis := "a1" }]
    { group_name := "summary",
      completion := { choices := [{ message := { content := "sum" } }] } }
    "sum" rfl rfl

theorem dictInsert_fresh (k : String) (v : α) (d : List (String × α))
    (h : ∀ q ∈ d, q.1 ≠ k) : dictInsert k v d = d ++ [(k, v)] := by
  induction d with
  | nil => rfl
  | cons q rest ih =>
    obtain ⟨k', v'⟩ := q
    have hq : k' ≠ k := h (k', v') (by simp)
    simp only [dictInsert]
    rw [if_neg hq, ih (fun x hx => h x (by simp [hx]))]
    simp

theorem pulls_message_groups_foldl (cfg : ReportConfiguration) (pulls : List Pull)
    (d : List (String × List Message))
    (hd : ∀ p ∈ pulls, ∀ q ∈ d, q.1 ≠ p.url)
    (hkeys : (pulls.map Pull.url).Nodup) :
    pulls.foldl (fun d p => dictInsert p.url (pull_group_messages cfg p) d) d
      = d ++ pulls.map (fun p => (p.url, pull_group_messages cfg p)) := by
  induction pulls generalizing d with
  | nil => simp
  | cons p ps ih =>
    simp only [List.foldl_cons]
    rw [dictInsert_fresh p.url (pull_group_messages cfg p) d
      (fun q hq => hd p (by simp) q hq)]
    have hnodup := hkeys
    rw [List.map_cons, List.nodup_cons] at hnodup
    rw [ih (d ++ [(p.url, pull_group_messages cfg p)])
      (by
        intro p' hp' q hq
        rcases List.mem_append.mp hq with hq | hq
        · exact hd p' (by simp [hp']) q hq
        · simp only [List.mem_singleton] at hq
          subst hq
          intro hcon
          have hcon' : p.url = p'.url := hcon
          exact hnodup.1
            (by rw [hcon']; exact List.mem_map_of_mem Pull.url hp'))
      hnodup.2]
    simp

theorem pulls_message_groups_eq_map (cfg : ReportConfiguration) (pulls : List Pull)
    (hkeys : (pulls.map Pull.url).Nodup) :
    pulls_message_groups cfg pulls
      = pulls.map (fun p => (p.url, pull_group_messages cfg p)) := by
  simpa using pulls_message_groups_foldl cfg pulls [] (by simp) hkeys

theorem projectAll_exists (outs : List CompletionOutcome)
    (h : ∀ o ∈ outs, ∃ pa, completion_to_pull_analysis o = some pa) :
    ∃ l, projectAll outs = some l ∧ l.length = outs.length
      ∧ ∀ i, ∀ hi : i < outs.length, ∀ hi' : i < l.length,
          completion_to_pull_analysis (outs.get ⟨i, hi⟩) = some (l.get ⟨i, hi'⟩) := by
  induction outs with
  | nil => exact ⟨[], rfl, rfl, by intro i hi; simp at hi⟩
  | cons o os ih =>
    obtain ⟨pa, hpa⟩ := h o (by simp)
    obtain ⟨l, hl, hlen, hpoint⟩ := ih (fun x hx => h x (by simp [hx]))
    refine ⟨pa :: l, ?_, by simp [hlen], ?_⟩
    · simp only [projectAll, hpa, hl]
      rfl
    · intro i hi hi'
      cases i with
      | zero => simpa using hpa
      | succ j =>
        have hj : j < os.length := by simpa using hi
        have hj' : j < l.length := by simpa using hi'
        simpa using hpoint j hj hj'

/-- C7: phase 1 builds one MessageGroup per fetched conversation keyed by
the pull url, whose payload is a system message with the grounding
prompt, then the conversation messages, then a user message with the pull
prompt appended last; and when every group completes with a first choice,
the phase returns one PullAnalysis per conversation, in order, whose url
is the group name of the CompletionResult that produced it, equal to the
pull url, and whose analysis is the first choice message content of that
completion. -/
theorem pulls_report_projection (cfg : ReportConfiguration)
    (env : String → List CompletionResponse) (pulls : List Pull)
    (hkeys : (pulls.map Pull.url).Nodup)
    (hok : ∀ p ∈ pulls, ∃ r s,
      (get_completion p.url (env p.url)).1 = .result r
        ∧ first_choice_content r.completion = some s) :
    pulls_message_groups cfg pulls
      = pulls.map (fun p => (p.url,
          [{ role := "system", content := cfg.grounding_prompt }]
            ++ p.messages
            ++ [{ role := "user", content := cfg.pull_prompt }]))
    ∧ ∃ l, generate_pulls_report cfg env pulls = some l
        ∧ l.length = pulls.length
        ∧ ∀ i, ∀ hi : i < pulls.length, ∀ hi' : i < l.length,
            ∃ r, (get_completion (pulls.get ⟨i, hi⟩).url
                    (env (pulls.get ⟨i, hi⟩).url)).1 = .result r
              ∧ r.group_name = (pulls.get ⟨i, hi⟩).url
              ∧ (l.get ⟨i, hi'⟩).url = r.group_name
              ∧ first_choice_content r.completion
                  = some ((l.get ⟨i, hi'⟩).analysis) := by
  have hgroups := pulls_message_groups_eq_map cfg pulls hkeys
  refine ⟨hgroups, ?_⟩
  have houts : get_completions env (pulls_message_groups cfg pulls)
      = pulls.map (fun p => (get_completion p.url (env p.url)).1) := by
    unfold get_completions
    rw [hgroups, List.map_map]
    rfl
  have hall : ∀ o ∈ pulls.map (fun p => (get_completion p.url (env p.url)).1),
      ∃ pa, completion_to_pull_analysis o = some pa := by
    intro o ho
    obtain ⟨p, hp, rfl⟩ := List.mem_map.mp ho
    obtain ⟨r, s, hr, hs⟩ := hok p hp
    exact ⟨{ url := r.group_name, analysis := s }, by
      simp [completion_to_pull_analysis, hr, hs]⟩
  obtain ⟨l, hl, hlen, hpoint⟩ := projectAll_exists _ hall
  refine ⟨l, ?_, ?_, ?_⟩
  · unfold generate_pulls_report
    rw [houts]
    exact hl
  · rw [hlen, List.length_map]
  · intro i hi hi'
    have hi2 : i < (pulls.map (fun p => (get_completion p.url (env p.url)).1)).length := by
      rw [List.length_map]
      exact hi
    have hi2' : i < l.length := hi'
    have hp := hpoint i hi2 hi2'
    have hget : (pulls.map (fun p => (get_completion p.url (env p.url)).1)).get ⟨i, hi2⟩
        = (get_completion (pulls.get ⟨i, hi⟩).url (env (pulls.get ⟨i, hi⟩).url)).1 := by
      simp [List.getElem_map]
    rw [hget] at hp
    obtain ⟨r, s, hr, hs⟩ := hok (pulls.get ⟨i, hi⟩) (List.get_mem pulls i hi)
    rw [hr] at hp
    simp only [completion_to_pull_analysis, hs, Option.map_some', Option.some.injEq] at hp
    refine ⟨r, hr, get_completion_result_group_name _ _ r hr, ?_, ?_⟩
    · rw [← hp]
    · rw [← hp, hs]

theorem pulls_report_projection_witness :
    pulls_message_groups
        { grounding_prompt := "G", pull_prompt := "P", overview_prompt := "O" }
        [{ url := "u1", messages := [{ role := "user", content := "hi" }] }]
      = ([{ url := "u1", messages := [{ role := "user", content := "hi" }] }]
          : List Pull).map (fun p => (p.url,
            [{ role := "system", content := "G" }]
              ++ p.messages
              ++ [{ role := "user", content := "P" }]))
    ∧ ∃ l, generate_pulls_report
          { grounding_prompt := "G", pull_prompt := "P", overview_prompt := "O" }
          (fun _ =>
            [{ status := 200,
               body := { choices := [{ message := { content := "an1" } }] } }])
          [{ url := "u1", messages := [{ role := "user", content := "hi" }] }]
        = some l
      ∧ l.length = 1 := by
  have h := pulls_report_projection
    { grounding_prompt := "G", pull_prompt := "P", overview_prompt := "O" }
    (fun _ =>
      [{ status := 200,
         body := { choices := [{ message := { content := "an1" } }] } }])
    [{ url := "u1", messages := [{ role := "user", content := "hi" }] }]
    (by decide)
    (by
      intro p hp
      simp only [List.mem_singleton] at hp
      subst hp
      exact ⟨{ group_name := "u1",
               completion := { choices := [{ message := { content := "an1" } }] } },
             "an1", rfl, rfl⟩)
  obtain ⟨l, h1, h2, _⟩ := h.2
  exact ⟨h.1, l, h1, h2⟩

mutual

theorem jsonCopy_eq : ∀ v : JValue, jsonCopy v = v
  | .str _ => rfl
  | .num _ => rfl
  | .jbool _ => rfl
  | .null => rfl
  | .arr elems => by rw [jsonCopy, jsonCopyList_eq elems]
  | .obj fields => by rw [jsonCopy, jsonCopyFields_eq fields]

theorem jsonCopyList_eq : ∀ vs : List JValue, jsonCopyList vs = vs
  | [] => rfl
  | v :: vs => by rw [jsonCopyList, jsonCopy_eq v, jsonCopyList_eq vs]

theorem jsonCopyFields_eq : ∀ fs : List (String × JValue), jsonCopyFields fs = fs
  | [] => rfl
  | (k, v) :: fs => by rw [jsonCopyFields, jsonCopy_eq v, jsonCopyFields_eq fs]

end

theorem dictLookup_dictInsert_self (k : String) (v : α) (d : List (String × α)) :
    dictLookup k (dictInsert k v d) = some v := by
  induction d with
  | nil => simp [dictInsert, dictLookup]
  | cons q rest ih =>
    obtain ⟨k', v'⟩ := q
    by_cases hk : k' = k
    · simp [dictInsert, dictLookup, hk]
    · simp [dictInsert, dictLookup, hk, ih]

theorem dictLookup_dictInsert_other (k k0 : String) (v : α)
    (d : List (String × α)) (hne : k0 ≠ k) :
    dictLookup k0 (dictInsert k v d) = dictLookup k0 d := by
  induction d with
  | nil =>
    have hkk : ¬ k = k0 := fun h => hne h.symm
    simp [dictInsert, dictLookup, hkk]
  | cons q rest ih =>
    obtain ⟨k', v'⟩ := q
    by_cases hk : k' = k
    · subst hk
      have hkk : ¬ k' = k0 := fun h => hne h.symm
      simp [dictInsert, dictLookup, hkk]
    · by_cases hk0 : k' = k0
      · simp [dictInsert, dictLookup, hk, hk0, hne]
      · simp [dictInsert, dictLookup, hk, hk0, hne, ih]

/-- C9: for every completion request, the JSON body posted to the
completion endpoint equals the configured data template with its messages
field replaced by the submitted message list and every other field
untouched; and the deep copy taken by the JSON round trip equals the
stored template value, so each request is built on a fresh copy and no
state beyond the network request is affected. -/
theorem completion_request_template_frame (data_template : List (String × JValue))
    (messages : List Message) :
    dictLookup "messages" (completion_request_data data_template messages)
      = some (encodeMessages messages)
    ∧ (∀ k, k ≠ "messages" →
        dictLookup k (completion_request_data data_template messages)
          = dictLookup k data_template)
    ∧ jsonCopyFields data_template = data_template := by
  refine ⟨?_, ?_, jsonCopyFields_eq data_template⟩
  · unfold completion_request_data
    exact dictLookup_dictInsert_self _ _ _
  · intro k hk
    unfold completion_request_data
    rw [dictLookup_dictInsert_other _ _ _ _ hk, jsonCopyFields_eq]

theorem completion_request_template_frame_witness :
    dictLookup "messages"
        (completion_request_data
          [("deployment_id", .str "gpt"), ("messages", .arr []),
           ("max_tokens", .num 4000)]
          [{ role := "user", content := "hi" }])
      = some (encodeMessages [{ role := "user", content := "hi" }])
    ∧ dictLookup "max_tokens"
        (completion_request_data
          [("deployment_id", .str "gpt"), ("messages", .arr []),
           ("max_tokens", .num 4000)]
          [{ role := "user", content := "hi" }])
      = dictLookup "max_tokens"
          ([("deployment_id", .str "gpt"), ("messages", .arr []),
            ("max_tokens", .num 4000)] : List (String × JValue))
    ∧ jsonCopyFields
        [("deployment_id", .str "gpt"), ("messages", .arr []),
         ("max_tokens", .num 4000)]
      = [("deployment_id", .str "gpt"), ("messages", .arr []),
         ("max_tokens", .num 4000)] := by
  have h := completion_request_template_frame
    [("deployment_id", .str "gpt"), ("messages", .arr []),
     ("max_tokens", .num 4000)]
    [{ role := "user", content := "hi" }]
  exact ⟨h.1, h.2.1 "max_tokens" (by decide), h.2.2⟩

end PullAnalyzer
